import Mathlib

/-
  Verification development for the dtwclust native-routine fragment.

  The only source file of the fragment is src/src/init.cpp, a registration
  shim: it declares the interpreter-call table `callMethods` and the
  cross-package C-callable registrations performed by `register_functions`.
  Those two tables are embedded below verbatim as Lean data.  The bodies of
  the five native routines (envelope, dtw_basic, logGAK, pairs,
  setnames_inplace) are not part of the fragment — only their registrations
  are — so, following the specification, each operation is modelled from
  the spec; every such definition carries a doc comment starting with
  `Modelled from the spec:` naming what is missing.
-/

namespace dtwclust

/-- Error taxonomy of the specification (§7): `invalidArgument` models the
InvalidArgument failure.  The constructor carries no payload, so a failing
call returns no partial result. -/
inductive DtwclustError where
  | invalidArgument
deriving DecidableEq, Repr

/-- The interpreter-call table `callMethods` of src/src/init.cpp, embedded
entry by entry: each `some (name, arity)` is one `R_CallMethodDef` row
(the `CALLDEF` macro expands to the routine name prefixed with `C_`
together with the argument count), and the final `none` is the
`{NULL, NULL, 0}` sentinel terminating the C array. -/
def callMethodsTable : List (Option (String × Nat)) :=
  [ some ("C_envelope", 2),
    some ("C_dtw_basic", 10),
    some ("C_logGAK", 8),
    some ("C_pairs", 2),
    some ("C_setnames_inplace", 2),
    none ]

/-- The names registered by `register_functions` via `R_RegisterCCallable`
(the `DTWCLUST_REGISTER` lines of src/src/init.cpp), in source order. -/
def registeredCCallables : List String :=
  ["dtw_basic", "envelope", "logGAK", "pairs", "setnames_inplace"]

/-- Argument count registered in `callMethods` for a given
interpreter-visible name (sentinel entry excluded). -/
def callArity (name : String) : Option Nat :=
  (callMethodsTable.filterMap id).lookup name

/-- Modelled from the spec: the body of `envelope` is absent from src/
(only its registration is present).  §4.1 defines the window at index `k`
as the index range max(0, k−w) .. min(N−1, k+w); over `List.range n` the
bound j < n is already supplied by `range`, so the window is the sublist
of indices j with k−w ≤ j ≤ k+w, natural subtraction realising
max(0, k−w). -/
def windowIdxs (n w k : Nat) : List Nat :=
  (List.range n).filter (fun j => k - w ≤ j && j ≤ k + w)

/-- Modelled from the spec: the sequence values inside the window at
index `k`.  Sequences are read with `getD` (default 0); the window only
ever addresses in-range indices. -/
def windowVals (s : List ℚ) (w k : Nat) : List ℚ :=
  (windowIdxs s.length w k).map (fun j => s.getD j 0)

/-- Minimum of a list of rationals, 0 for the empty list.  The empty case
never arises for a window, which always contains its own centre index. -/
def listMin : List ℚ → ℚ
  | [] => 0
  | x :: xs => xs.foldl min x

/-- Maximum of a list of rationals, 0 for the empty list. -/
def listMax : List ℚ → ℚ
  | [] => 0
  | x :: xs => xs.foldl max x

/-- Modelled from the spec (§4.1): the lower envelope value at index `k`
is the minimum of the sequence over the sliding window. -/
def windowMin (s : List ℚ) (w k : Nat) : ℚ := listMin (windowVals s w k)

/-- Modelled from the spec (§4.1): the upper envelope value at index `k`
is the maximum of the sequence over the sliding window. -/
def windowMax (s : List ℚ) (w k : Nat) : ℚ := listMax (windowVals s w k)

/-- Modelled from the spec: `envelope` (§4.1) returns the lower and upper
windowed envelopes of the sequence; it fails with InvalidArgument iff
N = 0 (the window radius is a natural number here, so W < 0 cannot
arise). -/
def envelope (s : List ℚ) (w : Nat) : Except DtwclustError (List ℚ × List ℚ) :=
  if s.isEmpty then .error .invalidArgument
  else .ok ((List.range s.length).map (fun k => windowMin s w k),
            (List.range s.length).map (fun k => windowMax s w k))

/-- Modelled from the spec (§4.2): the pointwise local distance between
two sample values.  The spec leaves the norm as a parameter ("e.g., L1 or
L2"); the model fixes the L1 norm |a − b|. -/
def localDist (x y : ℚ) : ℚ := |x - y|

/-- Modelled from the spec (§4.2, §9, glossary): the Sakoe-Chiba band
predicate.  `none` is the unbounded window; for `some w` a cell (i, j)
lies inside the band iff the index deviation |i − j| is at most w.  The
design notes of the spec leave the exact band formula open ("treat the
precise band formula as a parameter") and the glossary describes the band
as a restriction on index deviation; this choice also realises the
window = 0 diagonal-only requirement of §8. -/
def inBand : Option Nat → Nat → Nat → Bool
  | none, _, _ => true
  | some w, i, j => decide (Nat.dist i j ≤ w)

/-- Modelled from the spec (§4.2): the DTW dynamic-programming cumulative
cost over an N×M grid — cost(i, j) = localDist(A[i], B[j]) +
min(cost(i−1, j), cost(i, j−1), cost(i−1, j−1)), with boundary
cost(0, 0) = localDist(A[0], B[0]) and every cell outside the window band
set to +infinity (`⊤` of `WithTop ℚ`, which `+` propagates and `min`
absorbs, exactly as the spec's unreachable-cell convention demands). -/
def dtwCost (A B : List ℚ) (win : Option Nat) : Nat → Nat → WithTop ℚ
  | 0, 0 =>
      if inBand win 0 0 then (localDist (A.getD 0 0) (B.getD 0 0) : WithTop ℚ)
      else ⊤
  | i + 1, 0 =>
      if inBand win (i + 1) 0 then
        (localDist (A.getD (i + 1) 0) (B.getD 0 0) : WithTop ℚ) +
          dtwCost A B win i 0
      else ⊤
  | 0, j + 1 =>
      if inBand win 0 (j + 1) then
        (localDist (A.getD 0 0) (B.getD (j + 1) 0) : WithTop ℚ) +
          dtwCost A B win 0 j
      else ⊤
  | i + 1, j + 1 =>
      if inBand win (i + 1) (j + 1) then
        (localDist (A.getD (i + 1) 0) (B.getD (j + 1) 0) : WithTop ℚ) +
          min (dtwCost A B win i (j + 1))
            (min (dtwCost A B win (i + 1) j) (dtwCost A B win i j))
      else ⊤
termination_by i j => (i, j)

/-- Modelled from the spec: `dtw_basic` (§4.2) — its body is absent from
src/, only the registration is present.  The validated entry point fails
with InvalidArgument when either sequence is empty (the window radius is a
natural number here, so a negative radius cannot arise) and otherwise
returns the DTW cost at the far corner of the grid.  The optional
endpoint normalisation and alternative step patterns of the full
interface are not modelled; the claims under verification concern the
plain symmetric recurrence. -/
def dtw_basic (A B : List ℚ) (win : Option Nat) :
    Except DtwclustError (WithTop ℚ) :=
  if A.isEmpty || B.isEmpty then .error .invalidArgument
  else .ok (dtwCost A B win (A.length - 1) (B.length - 1))

/-- Running sum of the pointwise local distances along the diagonal, up to
and including index k. -/
def diagCost (A B : List ℚ) : Nat → ℚ
  | 0 => localDist (A.getD 0 0) (B.getD 0 0)
  | k + 1 => diagCost A B k + localDist (A.getD (k + 1) 0) (B.getD (k + 1) 0)

/-- Modelled from the spec: the symmetric (one-set) mode of `pairs`
(§4.4) — its body is absent from src/.  All unordered index pairs (i, j)
with 0 ≤ i < j < n, produced row-major: i ascending in the outer loop, j
ascending in the inner loop. -/
def pairsSym (n : Nat) : List (Nat × Nat) :=
  (List.range n).flatMap
    (fun i => ((List.range n).filter (fun j => i < j)).map (fun j => (i, j)))

/-- Modelled from the spec: `logGAK` (§4.3) — its body is absent from
src/.  The validation gate of §4.3/§7 is modelled exactly: the call fails
with InvalidArgument precisely when the bandwidth sigma is ≤ 0 or either
sequence is empty, and the error carries no partial result.  The numeric
log-score of a successful call is a floating-point log-sum-exp recursion
over Gaussian local kernels with no exact-arithmetic counterpart, so the
success value is not modelled (the success constructor carries no data);
the claims under verification concern only the error contract. -/
def logGAK (A B : List ℚ) (sigma : ℚ) ( _triangle : Nat) :
    Except DtwclustError Unit :=
  if sigma ≤ 0 || A.isEmpty || B.isEmpty then .error .invalidArgument
  else .ok ()

/-- Modelled from the spec: the named container of `setnames_inplace`
(§4.5) — an existing container holding numeric contents together with its
attached labels. -/
structure NamedContainer where
  contents : List ℚ
  names : List String
deriving DecidableEq, Repr

/-- Modelled from the spec: `setnames_inplace` (§4.5) — its body is
absent from src/.  Attaches the labels when the label count matches the
container size and fails with InvalidArgument otherwise, leaving the
contents untouched.  The in-place (no-copy) aspect is a host-memory-model
optimisation that the spec itself scopes out (§1, §9); it has no
observable counterpart in a value model. -/
def setnames_inplace (c : NamedContainer) (labels : List String) :
    Except DtwclustError NamedContainer :=
  if labels.length = c.contents.length then
    .ok { contents := c.contents, names := labels }
  else .error .invalidArgument

theorem foldl_min_le_init (l : List ℚ) : ∀ a : ℚ, l.foldl min a ≤ a := by
  induction l with
  | nil => intro a; exact le_refl a
  | cons x xs ih =>
    intro a
    calc (x :: xs).foldl min a = xs.foldl min (min a x) := rfl
    _ ≤ min a x := ih (min a x)
    _ ≤ a := min_le_left a x

theorem foldl_min_le_mem (l : List ℚ) :
    ∀ (a x : ℚ), x ∈ l → l.foldl min a ≤ x := by
  induction l with
  | nil => intro a x hx; cases hx
  | cons y ys ih =>
    intro a x hx
    rcases List.mem_cons.mp hx with h | h
    · subst h
      calc (x :: ys).foldl min a = ys.foldl min (min a x) := rfl
      _ ≤ min a x := foldl_min_le_init ys (min a x)
      _ ≤ x := min_le_right a x
    · exact ih (min a y) x h

theorem listMin_le_mem {l : List ℚ} {x : ℚ} (hx : x ∈ l) : listMin l ≤ x := by
  cases l with
  | nil => cases hx
  | cons y ys =>
    rcases List.mem_cons.mp hx with h | h
    · subst h
      exact foldl_min_le_init ys x
    · exact foldl_min_le_mem ys y x h

theorem init_le_foldl_max (l : List ℚ) : ∀ a : ℚ, a ≤ l.foldl max a := by
  induction l with
  | nil => intro a; exact le_refl a
  | cons x xs ih =>
    intro a
    calc a ≤ max a x := le_max_left a x
    _ ≤ xs.foldl max (max a x) := ih (max a x)
    _ = (x :: xs).foldl max a := rfl

theorem mem_le_foldl_max (l : List ℚ) :
    ∀ (a x : ℚ), x ∈ l → x ≤ l.foldl max a := by
  induction l with
  | nil => intro a x hx; cases hx
  | cons y ys ih =>
    intro a x hx
    rcases List.mem_cons.mp hx with h | h
    · subst h
      calc x ≤ max a x := le_max_right a x
      _ ≤ ys.foldl max (max a x) := init_le_foldl_max ys (max a x)
      _ = (x :: ys).foldl max a := rfl
    · exact ih (max a y) x h

theorem mem_le_listMax {l : List ℚ} {x : ℚ} (hx : x ∈ l) : x ≤ listMax l := by
  cases l with
  | nil => cases hx
  | cons y ys =>
    rcases List.mem_cons.mp hx with h | h
    · subst h
      exact init_le_foldl_max ys x
    · exact mem_le_foldl_max ys y x h

theorem mem_windowIdxs_self {n k : Nat} (w : Nat) (hk : k < n) :
    k ∈ windowIdxs n w k := by
  unfold windowIdxs
  rw [List.mem_filter]
  refine ⟨List.mem_range.mpr hk, ?_⟩
  simp [Nat.sub_le, Nat.le_add_right]

theorem getD_mem_windowVals {s : List ℚ} {k : Nat} (w : Nat)
    (hk : k < s.length) : s.getD k 0 ∈ windowVals s w k := by
  unfold windowVals
  exact List.mem_map.mpr ⟨k, mem_windowIdxs_self w hk, rfl⟩

theorem windowMin_le_self {s : List ℚ} {k : Nat} (w : Nat)
    (hk : k < s.length) : windowMin s w k ≤ s.getD k 0 :=
  listMin_le_mem (getD_mem_windowVals w hk)

theorem self_le_windowMax {s : List ℚ} {k : Nat} (w : Nat)
    (hk : k < s.length) : s.getD k 0 ≤ windowMax s w k :=
  mem_le_listMax (getD_mem_windowVals w hk)

theorem range_filter_eq_single :
    ∀ n k : Nat, k < n →
      (List.range n).filter (fun j => k ≤ j && j ≤ k) = [k] := by
  intro n
  induction n with
  | zero => intro k hk; cases hk
  | succ n ih =>
    intro k hk
    rw [List.range_succ, List.filter_append]
    rcases Nat.lt_succ_iff_lt_or_eq.mp hk with h | h
    · have h2 : (List.range n).filter (fun j => k ≤ j && j ≤ k) = [k] := ih k h
      have h3 : (List.filter (fun j => k ≤ j && j ≤ k) [n]) = [] := by
        simp only [List.filter_cons, List.filter_nil]
        have : ¬ (k ≤ n ∧ n ≤ k) := fun hc =>
          absurd (Nat.le_antisymm hc.1 hc.2) (Nat.ne_of_lt h)
        simp only [Bool.and_eq_true, decide_eq_true_eq]
        rw [if_neg this]
      rw [h2, h3, List.append_nil]
    · subst h
      have h2 : (List.range k).filter (fun j => k ≤ j && j ≤ k) = [] := by
        rw [List.filter_eq_nil_iff]
        intro j hj
        have hjk : j < k := List.mem_range.mp hj
        simp only [Bool.and_eq_true, decide_eq_true_eq, not_and]
        intro hc
        exact absurd hc (Nat.not_le_of_lt hjk)
      have h3 : (List.filter (fun j => k ≤ j && j ≤ k) [k]) = [k] := by
        simp
      rw [h2, h3, List.nil_append]

theorem windowIdxs_zero {n k : Nat} (hk : k < n) : windowIdxs n 0 k = [k] := by
  unfold windowIdxs
  exact range_filter_eq_single n k hk

theorem windowVals_zero {s : List ℚ} {k : Nat} (hk : k < s.length) :
    windowVals s 0 k = [s.getD k 0] := by
  unfold windowVals
  rw [windowIdxs_zero hk]
  rfl

theorem windowMin_zero {s : List ℚ} {k : Nat} (hk : k < s.length) :
    windowMin s 0 k = s.getD k 0 := by
  unfold windowMin
  rw [windowVals_zero hk]
  rfl

theorem windowMax_zero {s : List ℚ} {k : Nat} (hk : k < s.length) :
    windowMax s 0 k = s.getD k 0 := by
  unfold windowMax
  rw [windowVals_zero hk]
  rfl

theorem map_range_getD (s : List ℚ) :
    (List.range s.length).map (fun k => s.getD k 0) = s := by
  apply List.ext_getElem
  · simp
  · intro n h1 h2
    simp only [List.getElem_map, List.getElem_range]
    exact List.getD_eq_getElem s 0 h2

theorem dtwCost_zero_zero (A B : List ℚ) (win : Option Nat) :
    dtwCost A B win 0 0 =
      if inBand win 0 0 then (localDist (A.getD 0 0) (B.getD 0 0) : WithTop ℚ)
      else ⊤ := by
  simp only [dtwCost]

theorem dtwCost_succ_zero (A B : List ℚ) (win : Option Nat) (i : Nat) :
    dtwCost A B win (i + 1) 0 =
      if inBand win (i + 1) 0 then
        (localDist (A.getD (i + 1) 0) (B.getD 0 0) : WithTop ℚ) +
          dtwCost A B win i 0
      else ⊤ := by
  simp only [dtwCost]

theorem dtwCost_zero_succ (A B : List ℚ) (win : Option Nat) (j : Nat) :
    dtwCost A B win 0 (j + 1) =
      if inBand win 0 (j + 1) then
        (localDist (A.getD 0 0) (B.getD (j + 1) 0) : WithTop ℚ) +
          dtwCost A B win 0 j
      else ⊤ := by
  simp only [dtwCost]

theorem dtwCost_succ_succ (A B : List ℚ) (win : Option Nat) (i j : Nat) :
    dtwCost A B win (i + 1) (j + 1) =
      if inBand win (i + 1) (j + 1) then
        (localDist (A.getD (i + 1) 0) (B.getD (j + 1) 0) : WithTop ℚ) +
          min (dtwCost A B win i (j + 1))
            (min (dtwCost A B win (i + 1) j) (dtwCost A B win i j))
      else ⊤ := by
  simp only [dtwCost]

theorem localDist_self (x : ℚ) : localDist x x = 0 := by
  simp [localDist]

theorem localDist_comm (x y : ℚ) : localDist x y = localDist y x :=
  abs_sub_comm x y

theorem localDist_nonneg (x y : ℚ) : 0 ≤ localDist x y :=
  abs_nonneg (x - y)

theorem coe_localDist_nonneg (x y : ℚ) :
    (0 : WithTop ℚ) ≤ (localDist x y : WithTop ℚ) := by
  exact_mod_cast localDist_nonneg x y

theorem dtwCost_nonneg (A B : List ℚ) (win : Option Nat) :
    ∀ i j : Nat, 0 ≤ dtwCost A B win i j := by
  have key : ∀ n i j : Nat, i + j = n → 0 ≤ dtwCost A B win i j := by
    intro n
    induction n using Nat.strong_induction_on with
    | _ n ih =>
      intro i j hij
      match i, j with
      | 0, 0 =>
        rw [dtwCost_zero_zero]
        split
        · exact coe_localDist_nonneg _ _
        · exact le_top
      | i + 1, 0 =>
        rw [dtwCost_succ_zero]
        split
        · exact add_nonneg (coe_localDist_nonneg _ _)
            (ih (i + 0) (by omega) i 0 rfl)
        · exact le_top
      | 0, j + 1 =>
        rw [dtwCost_zero_succ]
        split
        · exact add_nonneg (coe_localDist_nonneg _ _)
            (ih (0 + j) (by omega) 0 j rfl)
        · exact le_top
      | i + 1, j + 1 =>
        rw [dtwCost_succ_succ]
        split
        · refine add_nonneg (coe_localDist_nonneg _ _) (le_min ?_ (le_min ?_ ?_))
          · exact ih (i + (j + 1)) (by omega) i (j + 1) rfl
          · exact ih (i + 1 + j) (by omega) (i + 1) j rfl
          · exact ih (i + j) (by omega) i j rfl
        · exact le_top
  intro i j
  exact key (i + j) i j rfl

theorem inBand_none (i j : Nat) : inBand none i j = true := rfl

theorem dtwCost_self_diag (A : List ℚ) :
    ∀ k : Nat, dtwCost A A none k k = 0 := by
  intro k
  induction k with
  | zero =>
    rw [dtwCost_zero_zero, if_pos (inBand_none 0 0), localDist_self]
    exact WithTop.coe_zero
  | succ k ih =>
    rw [dtwCost_succ_succ, if_pos (inBand_none (k + 1) (k + 1))]
    have h2 : min (dtwCost A A none (k + 1) k) (dtwCost A A none k k) = 0 := by
      rw [ih]
      exact min_eq_right (dtwCost_nonneg A A none (k + 1) k)
    have h1 : min (dtwCost A A none k (k + 1))
        (min (dtwCost A A none (k + 1) k) (dtwCost A A none k k)) = 0 := by
      rw [h2]
      exact min_eq_right (dtwCost_nonneg A A none k (k + 1))
    rw [h1, localDist_self, WithTop.coe_zero, add_zero]

theorem inBand_comm (win : Option Nat) (i j : Nat) :
    inBand win i j = inBand win j i := by
  cases win with
  | none => rfl
  | some w => simp [inBand, Nat.dist_comm]

theorem dtwCost_comm (A B : List ℚ) (win : Option Nat) :
    ∀ i j : Nat, dtwCost A B win i j = dtwCost B A win j i := by
  have key : ∀ n i j : Nat, i + j = n →
      dtwCost A B win i j = dtwCost B A win j i := by
    intro n
    induction n using Nat.strong_induction_on with
    | _ n ih =>
      intro i j hij
      match i, j with
      | 0, 0 =>
        rw [dtwCost_zero_zero, dtwCost_zero_zero, localDist_comm]
      | i + 1, 0 =>
        rw [dtwCost_succ_zero, dtwCost_zero_succ, inBand_comm, localDist_comm,
          ih (i + 0) (by omega) i 0 rfl]
      | 0, j + 1 =>
        rw [dtwCost_zero_succ, dtwCost_succ_zero, inBand_comm, localDist_comm,
          ih (0 + j) (by omega) 0 j rfl]
      | i + 1, j + 1 =>
        rw [dtwCost_succ_succ, dtwCost_succ_succ, inBand_comm, localDist_comm,
          ih (i + (j + 1)) (by omega) i (j + 1) rfl,
          ih (i + 1 + j) (by omega) (i + 1) j rfl,
          ih (i + j) (by omega) i j rfl,
          min_left_comm]
  intro i j
  exact key (i + j) i j rfl

theorem inBand_zero_iff (i j : Nat) : inBand (some 0) i j = true ↔ i = j := by
  simp only [inBand, decide_eq_true_eq, Nat.le_zero, Nat.dist]
  omega

theorem dtwCost_window_zero_offdiag (A B : List ℚ) :
    ∀ i j : Nat, i ≠ j → dtwCost A B (some 0) i j = ⊤ := by
  intro i j hij
  have hband : ¬ inBand (some 0) i j = true := fun hc =>
    hij ((inBand_zero_iff i j).mp hc)
  match i, j with
  | 0, 0 => exact absurd rfl hij
  | i + 1, 0 => rw [dtwCost_succ_zero, if_neg hband]
  | 0, j + 1 => rw [dtwCost_zero_succ, if_neg hband]
  | i + 1, j + 1 => rw [dtwCost_succ_succ, if_neg hband]

theorem dtwCost_window_zero_diag (A B : List ℚ) :
    ∀ k : Nat, dtwCost A B (some 0) k k = (diagCost A B k : WithTop ℚ) := by
  intro k
  induction k with
  | zero =>
    rw [dtwCost_zero_zero, if_pos ((inBand_zero_iff 0 0).mpr rfl)]
    rfl
  | succ k ih =>
    rw [dtwCost_succ_succ, if_pos ((inBand_zero_iff (k + 1) (k + 1)).mpr rfl)]
    rw [dtwCost_window_zero_offdiag A B k (k + 1) (by omega),
      dtwCost_window_zero_offdiag A B (k + 1) k (by omega), ih]
    rw [min_eq_right (le_top : (diagCost A B k : WithTop ℚ) ≤ ⊤),
      min_eq_right (le_top : (diagCost A B k : WithTop ℚ) ≤ ⊤)]
    rw [diagCost, ← WithTop.coe_add]
    rw [add_comm (diagCost A B k)]

theorem diagCost_eq_sum (A B : List ℚ) :
    ∀ k : Nat, diagCost A B k =
      ((List.range (k + 1)).map
        (fun i => localDist (A.getD i 0) (B.getD i 0))).sum := by
  intro k
  induction k with
  | zero =>
    rw [show List.range 1 = [0] from rfl]
    simp [diagCost]
  | succ k ih =>
    rw [List.range_succ, List.map_append, List.sum_append, ← ih, diagCost]
    simp

theorem listIsEmpty_false {α : Type} {s : List α} (h : s ≠ []) :
    s.isEmpty = false := by
  cases s with
  | nil => exact absurd rfl h
  | cons a l => rfl

theorem pairsSym_mem (n i j : Nat) :
    (i, j) ∈ pairsSym n ↔ i < j ∧ j < n := by
  simp only [pairsSym, List.mem_flatMap, List.mem_map, List.mem_filter,
    List.mem_range, decide_eq_true_eq]
  constructor
  · rintro ⟨a, ha, b, ⟨hbn, hab⟩, heq⟩
    cases heq
    exact ⟨hab, hbn⟩
  · rintro ⟨hij, hjn⟩
    exact ⟨i, lt_trans hij hjn, j, ⟨hjn, hij⟩, rfl⟩

theorem pairsSym_pairwise (n : Nat) :
    (pairsSym n).Pairwise
      (fun p q => p.1 < q.1 ∨ (p.1 = q.1 ∧ p.2 < q.2)) := by
  unfold pairsSym
  rw [List.pairwise_flatMap]
  constructor
  · intro a ha
    rw [List.pairwise_map]
    exact ((List.pairwise_lt_range n).filter _).imp
      (fun h => Or.inr ⟨rfl, h⟩)
  · refine (List.pairwise_lt_range n).imp ?_
    intro a b hab x hx y hy
    obtain ⟨xa, hxa, rfl⟩ := List.mem_map.mp hx
    obtain ⟨ya, hya, rfl⟩ := List.mem_map.mp hy
    exact Or.inl hab

theorem pairsSym_nodup (n : Nat) : (pairsSym n).Nodup := by
  refine (pairsSym_pairwise n).imp ?_
  intro p q h heq
  subst heq
  rcases h with h | h
  · exact lt_irrefl _ h
  · exact lt_irrefl _ h.2

end dtwclust

/-- C1: the fragment exposes exactly five native entry points — envelope,
dtw_basic, logGAK, pairs and setnames_inplace.  The interpreter-call table
lists exactly these five under the `C_` prefix, the cross-package table
registers exactly the same five names, and no other routine appears in
either table: the interpreter-table names are a permutation of the
registered names with `C_` prepended, both tables are duplicate-free, and
both have exactly five proper entries. -/
theorem dtwclust_exported_entry_points :
    ((dtwclust.callMethodsTable.filterMap id).map Prod.fst) =
      ["C_envelope", "C_dtw_basic", "C_logGAK", "C_pairs", "C_setnames_inplace"] ∧
    ((dtwclust.callMethodsTable.filterMap id).map Prod.fst).Perm
      (dtwclust.registeredCCallables.map (fun n => "C_" ++ n)) ∧
    dtwclust.registeredCCallables.Perm
      ["envelope", "dtw_basic", "logGAK", "pairs", "setnames_inplace"] ∧
    ((dtwclust.callMethodsTable.filterMap id).map Prod.fst).Nodup ∧
    dtwclust.registeredCCallables.Nodup ∧
    (dtwclust.callMethodsTable.filterMap id).length = 5 ∧
    dtwclust.registeredCCallables.length = 5 := by
  decide

/-- C2: for every sequence of length N ≥ 1 and every window radius W ≥ 0,
`envelope` returns arrays lower and upper of length N, with lower at k the
minimum and upper at k the maximum of the sequence over the window
max(0, k−W) .. min(N−1, k+W); consequently lower ≤ sequence ≤ upper
pointwise, and when W = 0 both envelopes equal the sequence itself. -/
theorem dtwclust_envelope_spec (s : List ℚ) (w : Nat) (h : s ≠ []) :
    ∃ lo up, dtwclust.envelope s w = .ok (lo, up) ∧
      lo.length = s.length ∧ up.length = s.length ∧
      (∀ k, k < s.length →
        lo.getD k 0 = dtwclust.windowMin s w k ∧
        up.getD k 0 = dtwclust.windowMax s w k ∧
        lo.getD k 0 ≤ s.getD k 0 ∧ s.getD k 0 ≤ up.getD k 0) ∧
      (w = 0 → lo = s ∧ up = s) := by
  have hne : s.isEmpty = false := dtwclust.listIsEmpty_false h
  refine ⟨(List.range s.length).map (fun k => dtwclust.windowMin s w k),
          (List.range s.length).map (fun k => dtwclust.windowMax s w k),
          ?_, by simp, by simp, ?_, ?_⟩
  · unfold dtwclust.envelope
    rw [hne]
    rfl
  · intro k hk
    have hk1 : k < ((List.range s.length).map
        (fun k => dtwclust.windowMin s w k)).length := by simpa using hk
    have hk2 : k < ((List.range s.length).map
        (fun k => dtwclust.windowMax s w k)).length := by simpa using hk
    have e1 : ((List.range s.length).map
        (fun k => dtwclust.windowMin s w k)).getD k 0 =
        dtwclust.windowMin s w k := by
      rw [List.getD_eq_getElem _ _ hk1]
      simp
    have e2 : ((List.range s.length).map
        (fun k => dtwclust.windowMax s w k)).getD k 0 =
        dtwclust.windowMax s w k := by
      rw [List.getD_eq_getElem _ _ hk2]
      simp
    refine ⟨e1, e2, ?_, ?_⟩
    · rw [e1]; exact dtwclust.windowMin_le_self w hk
    · rw [e2]; exact dtwclust.self_le_windowMax w hk
  · intro hw
    subst hw
    constructor
    · rw [List.map_congr_left (fun k hk =>
        dtwclust.windowMin_zero (List.mem_range.mp hk))]
      exact dtwclust.map_range_getD s
    · rw [List.map_congr_left (fun k hk =>
        dtwclust.windowMax_zero (List.mem_range.mp hk))]
      exact dtwclust.map_range_getD s

/-- Witness for C2 at the concrete sequence [1, 2, 3] with window radius
1. -/
theorem dtwclust_envelope_spec_witness :
    ∃ lo up, dtwclust.envelope [1, 2, 3] 1 = .ok (lo, up) ∧
      lo.length = ([1, 2, 3] : List ℚ).length ∧
      up.length = ([1, 2, 3] : List ℚ).length ∧
      (∀ k, k < ([1, 2, 3] : List ℚ).length →
        lo.getD k 0 = dtwclust.windowMin [1, 2, 3] 1 k ∧
        up.getD k 0 = dtwclust.windowMax [1, 2, 3] 1 k ∧
        lo.getD k 0 ≤ ([1, 2, 3] : List ℚ).getD k 0 ∧
        ([1, 2, 3] : List ℚ).getD k 0 ≤ up.getD k 0) ∧
      ((1 : Nat) = 0 → lo = [1, 2, 3] ∧ up = [1, 2, 3]) :=
  dtwclust_envelope_spec [1, 2, 3] 1 (by decide)

/-- C3: for every non-empty sequence A, `dtw_basic` applied to A with
itself under an unbounded window returns distance 0. -/
theorem dtwclust_dtw_basic_self (A : List ℚ) (h : A ≠ []) :
    dtwclust.dtw_basic A A none = .ok 0 := by
  have hne : A.isEmpty = false := dtwclust.listIsEmpty_false h
  unfold dtwclust.dtw_basic
  rw [hne]
  simp only [Bool.or_self, Bool.false_eq_true, if_false]
  rw [dtwclust.dtwCost_self_diag]

/-- Witness for C3 at the concrete sequence [1, 2]. -/
theorem dtwclust_dtw_basic_self_witness :
    dtwclust.dtw_basic [1, 2] [1, 2] none = .ok 0 :=
  dtwclust_dtw_basic_self [1, 2] (by decide)

/-- C4: `dtw_basic` is symmetric in its two sequences — the model applies
no asymmetric normalisation, so this holds for every window choice. -/
theorem dtwclust_dtw_basic_comm (A B : List ℚ) (win : Option Nat)
    (hA : A ≠ []) (hB : B ≠ []) :
    dtwclust.dtw_basic A B win = dtwclust.dtw_basic B A win := by
  unfold dtwclust.dtw_basic
  rw [dtwclust.listIsEmpty_false hA, dtwclust.listIsEmpty_false hB]
  simp only [Bool.or_self, Bool.false_eq_true, if_false]
  rw [dtwclust.dtwCost_comm]

/-- Witness for C4 at the concrete sequences [1, 2] and [3] with window
radius 1. -/
theorem dtwclust_dtw_basic_comm_witness :
    dtwclust.dtw_basic [1, 2] [3] (some 1) =
      dtwclust.dtw_basic [3] [1, 2] (some 1) :=
  dtwclust_dtw_basic_comm [1, 2] [3] (some 1) (by decide) (by decide)

/-- C5: for equal-length non-empty sequences, `dtw_basic` with window
radius 0 returns the sum of the pointwise local distances — the
diagonal-only path. -/
theorem dtwclust_dtw_basic_window_zero (A B : List ℚ)
    (hlen : A.length = B.length) (hA : A ≠ []) :
    dtwclust.dtw_basic A B (some 0) =
      .ok (((List.range A.length).map
        (fun i => dtwclust.localDist (A.getD i 0) (B.getD i 0))).sum : ℚ) := by
  have hB : B ≠ [] := by
    intro hb
    rw [hb] at hlen
    have hz : A.length = 0 := by simpa using hlen
    exact hA (List.eq_nil_of_length_eq_zero hz)
  unfold dtwclust.dtw_basic
  rw [dtwclust.listIsEmpty_false hA, dtwclust.listIsEmpty_false hB]
  simp only [Bool.or_self, Bool.false_eq_true, if_false]
  rw [← hlen, dtwclust.dtwCost_window_zero_diag, dtwclust.diagCost_eq_sum]
  have hpos : 0 < A.length := List.length_pos.mpr hA
  rw [show A.length - 1 + 1 = A.length by omega]

/-- Witness for C5 at the concrete sequences [1, 3] and [2, 2]. -/
theorem dtwclust_dtw_basic_window_zero_witness :
    dtwclust.dtw_basic [1, 3] [2, 2] (some 0) =
      .ok (((List.range ([1, 3] : List ℚ).length).map
        (fun i => dtwclust.localDist (([1, 3] : List ℚ).getD i 0)
          (([2, 2] : List ℚ).getD i 0))).sum : ℚ) :=
  dtwclust_dtw_basic_window_zero [1, 3] [2, 2] rfl (by decide)

/-- C6: `pairs` in symmetric (one-set) mode returns exactly the unordered
pairs (i, j) with 0 ≤ i < j < N, in row-major order (outer index
ascending, inner index ascending within each outer index), with no
repeated pairs and no self-pairs; in particular at N = 5 it returns
exactly the 10 pairs (0,1) through (3,4). -/
theorem dtwclust_pairs_sym_spec :
    (∀ n i j : Nat, (i, j) ∈ dtwclust.pairsSym n ↔ i < j ∧ j < n) ∧
    (∀ n : Nat, (dtwclust.pairsSym n).Pairwise
      (fun p q => p.1 < q.1 ∨ (p.1 = q.1 ∧ p.2 < q.2))) ∧
    (∀ n : Nat, (dtwclust.pairsSym n).Nodup) ∧
    dtwclust.pairsSym 5 =
      [(0, 1), (0, 2), (0, 3), (0, 4), (1, 2), (1, 3), (1, 4),
       (2, 3), (2, 4), (3, 4)] :=
  ⟨dtwclust.pairsSym_mem, dtwclust.pairsSym_pairwise,
   dtwclust.pairsSym_nodup, by decide⟩

/-- C7: `logGAK` fails with InvalidArgument whenever sigma ≤ 0 or either
input sequence is empty; the error carries no payload, so no partial
result is returned on such a failure. -/
theorem dtwclust_logGAK_invalid (A B : List ℚ) (sigma : ℚ) (t : Nat)
    (h : sigma ≤ 0 ∨ A = [] ∨ B = []) :
    dtwclust.logGAK A B sigma t = .error .invalidArgument := by
  have hc : (decide (sigma ≤ 0) || A.isEmpty || B.isEmpty) = true := by
    rcases h with h | h | h
    · simp [h]
    · subst h; simp
    · subst h; simp
  unfold dtwclust.logGAK
  rw [if_pos hc]

/-- Witness for C7 at sigma = 0 with the concrete sequences [1] and
[1]. -/
theorem dtwclust_logGAK_invalid_witness :
    dtwclust.logGAK [1] [1] 0 1 = .error .invalidArgument :=
  dtwclust_logGAK_invalid [1] [1] 0 1 (Or.inl (by decide))

/-- C8: for every container and label list of matching length,
`setnames_inplace` succeeds with a container whose read-back labels are
exactly the input labels in the same order and whose contents are
unchanged; when the label count differs from the container size it fails
with InvalidArgument. -/
theorem dtwclust_setnames_inplace_spec (c : dtwclust.NamedContainer)
    (labels : List String) :
    (labels.length = c.contents.length →
      ∃ d : dtwclust.NamedContainer,
        dtwclust.setnames_inplace c labels = .ok d ∧
        d.names = labels ∧ d.contents = c.contents) ∧
    (labels.length ≠ c.contents.length →
      dtwclust.setnames_inplace c labels = .error .invalidArgument) := by
  constructor
  · intro h
    refine ⟨⟨c.contents, labels⟩, ?_, rfl, rfl⟩
    unfold dtwclust.setnames_inplace
    rw [if_pos h]
  · intro h
    unfold dtwclust.setnames_inplace
    rw [if_neg h]

/-- Witness for C8 at a concrete two-element container relabelled with
two labels. -/
theorem dtwclust_setnames_inplace_witness :
    ∃ d : dtwclust.NamedContainer,
      dtwclust.setnames_inplace ⟨[1, 2], ["p", "q"]⟩ ["x", "y"] = .ok d ∧
      d.names = ["x", "y"] ∧ d.contents = [1, 2] :=
  (dtwclust_setnames_inplace_spec ⟨[1, 2], ["p", "q"]⟩ ["x", "y"]).1 rfl

/-- C9: each of the five modelled operations is deterministic and free of
shared mutable state — every operation is a total function of its
arguments alone, no state appears in any signature, so two invocations on
equal inputs produce equal results and no invocation can affect another
one. -/
theorem dtwclust_ops_deterministic :
    (∀ s₁ s₂ : List ℚ, ∀ w₁ w₂ : Nat, s₁ = s₂ → w₁ = w₂ →
      dtwclust.envelope s₁ w₁ = dtwclust.envelope s₂ w₂) ∧
    (∀ A₁ A₂ B₁ B₂ : List ℚ, ∀ win₁ win₂ : Option Nat,
      A₁ = A₂ → B₁ = B₂ → win₁ = win₂ →
      dtwclust.dtw_basic A₁ B₁ win₁ = dtwclust.dtw_basic A₂ B₂ win₂) ∧
    (∀ A₁ A₂ B₁ B₂ : List ℚ, ∀ σ₁ σ₂ : ℚ, ∀ t₁ t₂ : Nat,
      A₁ = A₂ → B₁ = B₂ → σ₁ = σ₂ → t₁ = t₂ →
      dtwclust.logGAK A₁ B₁ σ₁ t₁ = dtwclust.logGAK A₂ B₂ σ₂ t₂) ∧
    (∀ n₁ n₂ : Nat, n₁ = n₂ → dtwclust.pairsSym n₁ = dtwclust.pairsSym n₂) ∧
    (∀ c₁ c₂ : dtwclust.NamedContainer, ∀ l₁ l₂ : List String,
      c₁ = c₂ → l₁ = l₂ →
      dtwclust.setnames_inplace c₁ l₁ = dtwclust.setnames_inplace c₂ l₂) := by
  refine ⟨?_, ?_, ?_, ?_, ?_⟩ <;> intros <;> subst_vars <;> rfl

/-- Witness for C9: two conjuncts instantiated at concrete equal
inputs. -/
theorem dtwclust_ops_deterministic_witness :
    dtwclust.envelope [1] 0 = dtwclust.envelope [1] 0 ∧
    dtwclust.pairsSym 3 = dtwclust.pairsSym 3 :=
  ⟨dtwclust_ops_deterministic.1 [1] [1] 0 0 rfl rfl,
   dtwclust_ops_deterministic.2.2.2.1 3 3 rfl⟩

/-- C10: at the host-call boundary the registered argument counts are
fixed — `C_envelope` takes exactly 2 arguments, `C_dtw_basic` 10,
`C_logGAK` 8, `C_pairs` 2 and `C_setnames_inplace` 2 — and the
registration table is terminated by the null sentinel entry, every proper
entry preceding it. -/
theorem dtwclust_registered_arities :
    dtwclust.callArity "C_envelope" = some 2 ∧
    dtwclust.callArity "C_dtw_basic" = some 10 ∧
    dtwclust.callArity "C_logGAK" = some 8 ∧
    dtwclust.callArity "C_pairs" = some 2 ∧
    dtwclust.callArity "C_setnames_inplace" = some 2 ∧
    dtwclust.callMethodsTable.getLast? = some none ∧
    dtwclust.callMethodsTable.dropLast.all Option.isSome = true := by
  decide
